import Mathlib

/-!
Verification development for the Vulkan-ValidationLayers dispatch chassis:
a shallow embedding of the handle-identity-virtualization subsystem
(`HandleWrapper` in `layers/chassis/dispatch_object.h`) and of the
small-footprint containers (`layers/containers/custom_containers.h`),
with theorems settling the spec's testable properties.

Handles and virtual IDs are modelled as `Nat` below `2^64` (the code uses
`uint64_t`); the process-wide concurrent map is modelled as an association
list; `std::hash` is implementation-defined and is kept as an explicit
function parameter `hash : Nat → Nat`.
-/

namespace VVL

/-- `uint64_t` modulus. -/
def U64 : Nat := 2 ^ 64

/-- `HashedUint64::HASHED_UINT64_SHIFT = 40`. -/
def HASHED_UINT64_SHIFT : Nat := 40

/-- `HashedUint64::hash`: `h = vvl::hash(id); id |= h << 40; return id`.
The shift of a `uint64_t` truncates modulo `2^64`; the bitwise-or of two
values below `2^64` stays below `2^64`. -/
def hashedUint64 (hash : Nat) (id : Nat) : Nat :=
  id ||| (hash <<< HASHED_UINT64_SHIFT % U64)

/-- Association-list lookup, modelling `find` on the id map. -/
def mapLookup : List (Nat × Nat) → Nat → Option Nat
  | [], _ => none
  | (k, v) :: rest, key => if k = key then some v else mapLookup rest key

/-- `insert_or_assign`: replace the binding for `k` if present, else append. -/
def insertOrAssign : List (Nat × Nat) → Nat → Nat → List (Nat × Nat)
  | [], k, v => [(k, v)]
  | (k', v') :: rest, k, v =>
    if k' = k then (k, v) :: rest else (k', v') :: insertOrAssign rest k v

/-- Removal of the binding for `k` (the mutation performed by `pop`). -/
def removeKey (m : List (Nat × Nat)) (k : Nat) : List (Nat × Nat) :=
  m.filter (fun p => p.1 ≠ k)

/-- State of `HandleWrapper`: `global_unique_id` counter and
`unique_id_mapping` (virtual ID → real handle). -/
structure WrapperState where
  counter : Nat
  idMap : List (Nat × Nat)
deriving DecidableEq, Repr

/-- The state at process start: the counter is initialized to 1 so that
value 0 is never issued (it collides with `VK_NULL_HANDLE`). -/
def WrapperState.init : WrapperState := ⟨1, []⟩

/-- `HandleWrapper::Unwrap`: null unwraps to null; an unknown id returns
the sentinel `(HandleType)0`; otherwise the mapped real handle. -/
def Unwrap (st : WrapperState) (wrapped : Nat) : Nat :=
  if wrapped = 0 then wrapped
  else
    match mapLookup st.idMap wrapped with
    | none => 0
    | some real => real

/-- `HandleWrapper::WrapNew`: null is returned unchanged; otherwise the
next counter value is taken (`global_unique_id++`, a `uint64_t`), turned
into a shard-tagged id by `HashedUint64::hash`, inserted into the map, and
returned. -/
def WrapNew (hash : Nat → Nat) (st : WrapperState) (handle : Nat) :
    Nat × WrapperState :=
  if handle = 0 then (handle, st)
  else
    let uid := st.counter
    let uid := hashedUint64 (hash uid) uid
    (uid, ⟨(st.counter + 1) % U64, insertOrAssign st.idMap uid handle⟩)

/-- `HandleWrapper::Find`: the mapped real handle, or the sentinel
`CastFromUint(0)` when the id is absent. -/
def Find (st : WrapperState) (wrapped : Nat) : Nat :=
  match mapLookup st.idMap wrapped with
  | some real => real
  | none => 0

/-- `HandleWrapper::Erase`: `pop` returns the mapped real handle (or the
sentinel 0 when absent) and removes the entry. -/
def Erase (st : WrapperState) (wrapped : Nat) : Nat × WrapperState :=
  match mapLookup st.idMap wrapped with
  | some real => (real, ⟨st.counter, removeKey st.idMap wrapped⟩)
  | none => (0, ⟨st.counter, removeKey st.idMap wrapped⟩)

/-- State of `dispatch::Instance`: the wrapper state plus
`display_id_reverse_mapping` (real display handle → virtual ID). -/
structure InstanceState where
  wrapper : WrapperState
  revMap : List (Nat × Nat)
deriving DecidableEq, Repr

/-- `Instance::MaybeWrapDisplay`: consult the reverse map first; only on
first sight wrap the handle and record the reverse mapping. -/
def MaybeWrapDisplay (hash : Nat → Nat) (st : InstanceState) (handle : Nat) :
    Nat × InstanceState :=
  match mapLookup st.revMap handle with
  | some id => (id, st)
  | none =>
    let r := WrapNew hash st.wrapper handle
    (r.1, ⟨r.2, insertOrAssign st.revMap handle r.1⟩)

/-- Run a sequence of `WrapNew` calls, collecting the returned IDs. -/
def runWrapNew (hash : Nat → Nat) (st : WrapperState) :
    List Nat → List Nat × WrapperState
  | [] => ([], st)
  | h :: rest =>
    let r := WrapNew hash st h
    let rr := runWrapNew hash r.2 rest
    (r.1 :: rr.1, rr.2)

/- Basic lemmas about the association-list operations. -/

theorem mapLookup_insertOrAssign_self (m : List (Nat × Nat)) (k v : Nat) :
    mapLookup (insertOrAssign m k v) k = some v := by
  induction m with
  | nil => simp [insertOrAssign, mapLookup]
  | cons p rest ih =>
    obtain ⟨k', v'⟩ := p
    by_cases h : k' = k
    · simp [insertOrAssign, h, mapLookup]
    · simp [insertOrAssign, h, mapLookup, ih]

theorem mapLookup_removeKey_self (m : List (Nat × Nat)) (k : Nat) :
    mapLookup (removeKey m k) k = none := by
  induction m with
  | nil => simp [removeKey, mapLookup]
  | cons p rest ih =>
    obtain ⟨k', v'⟩ := p
    by_cases h : k' = k
    · simpa [removeKey, h] using ih
    · simpa [removeKey, h, mapLookup] using ih

/-- A bitwise-or is nonzero as soon as its left argument is. -/
theorem lor_ne_zero_left {a b : Nat} (h : a ≠ 0) : a ||| b ≠ 0 := by
  intro hz
  apply h
  apply Nat.eq_of_testBit_eq
  intro i
  have hb := congrArg (fun n => Nat.testBit n i) hz
  simp only [Nat.testBit_lor, Nat.zero_testBit, Bool.or_eq_false_iff] at hb
  simp [hb.1]

theorem hashedUint64_ne_zero (hash : Nat) {id : Nat} (h : id ≠ 0) :
    hashedUint64 hash id ≠ 0 :=
  lor_ne_zero_left h

/-- Claim C1: for every non-null handle `x`, `Unwrap (WrapNew x) = x`;
`Unwrap` of the null handle returns the null handle; `Unwrap` of an id that
was never issued or was erased (absent from the map) returns the
invalid-handle sentinel 0; and `WrapNew` applied to the null handle returns
the null handle without issuing a new ID. -/
theorem C1_unwrap_wrapNew (hash : Nat → Nat) (st : WrapperState) (x id : Nat)
    (hx : x ≠ 0) (hc : st.counter ≠ 0) (hid : id ≠ 0)
    (habsent : mapLookup st.idMap id = none) :
    Unwrap (WrapNew hash st x).2 (WrapNew hash st x).1 = x ∧
    Unwrap st 0 = 0 ∧
    Unwrap st id = 0 ∧
    WrapNew hash st 0 = (0, st) := by
  refine ⟨?_, ?_, ?_, ?_⟩
  · have hnz : hashedUint64 (hash st.counter) st.counter ≠ 0 :=
      hashedUint64_ne_zero _ hc
    simp [WrapNew, hx, Unwrap, hnz, mapLookup_insertOrAssign_self]
  · simp [Unwrap]
  · simp [Unwrap, hid, habsent]
  · simp [WrapNew]

/-- Witness for C1 at a concrete state: wrapping handle 5 in the initial
state with the identity hash. -/
theorem C1_unwrap_wrapNew_witness :
    (5 : Nat) ≠ 0 ∧ WrapperState.init.counter ≠ 0 ∧ (7 : Nat) ≠ 0 ∧
      mapLookup WrapperState.init.idMap 7 = none ∧
      (Unwrap (WrapNew (fun x => x) WrapperState.init 5).2
          (WrapNew (fun x => x) WrapperState.init 5).1 = 5 ∧
        Unwrap WrapperState.init 0 = 0 ∧
        Unwrap WrapperState.init 7 = 0 ∧
        WrapNew (fun x => x) WrapperState.init 0 = (0, WrapperState.init)) :=
  ⟨by decide, by decide, by decide, by decide,
    C1_unwrap_wrapNew (fun x => x) WrapperState.init 5 7
      (by decide) (by decide) (by decide) (by decide)⟩

/-- Closed form of a run of `WrapNew` calls on any sequence of non-null
handles: while the counter does not wrap around `2^64`, call `i` (0-based)
returns the shard-tagged image of counter value `c + i`, independently of
which non-null handles are wrapped. -/
theorem runWrapNew_ids (hash : Nat → Nat) :
    ∀ (handles : List Nat) (c : Nat) (m : List (Nat × Nat)),
      0 ∉ handles → c + handles.length ≤ U64 →
      (runWrapNew hash ⟨c, m⟩ handles).1 =
        (List.range handles.length).map
          (fun i => hashedUint64 (hash (c + i)) (c + i))
  | [], c, m => by
    intro _ _
    simp [runWrapNew]
  | h :: rest, c, m => by
    intro hnn hbound
    have hh : h ≠ 0 := fun he => hnn (he ▸ List.mem_cons_self h rest)
    have hrest : 0 ∉ rest := fun hr => hnn (List.mem_cons_of_mem h hr)
    by_cases hc1 : c + 1 = U64
    · have hre : rest = [] := by
        have hlen : rest.length = 0 := by
          simp only [List.length_cons] at hbound
          omega
        exact List.length_eq_zero.mp hlen
      subst hre
      simp [runWrapNew, WrapNew, hh, hashedUint64, List.range_succ]
    · have hlt : c + 1 < U64 := by
        simp only [List.length_cons] at hbound
        omega
      have hmod : (c + 1) % U64 = c + 1 := Nat.mod_eq_of_lt hlt
      have hshift : ∀ i : Nat, c + 1 + i = c + (i + 1) := by
        intro i; omega
      simp only [runWrapNew, WrapNew, if_neg hh, hmod, List.length_cons]
      rw [runWrapNew_ids hash rest (c + 1) _ hrest (by
        simp only [List.length_cons] at hbound
        omega)]
      rw [List.range_succ_eq_map]
      simp [List.map_map, Function.comp_def, hshift]

/-- Counter values below `2^40` are recoverable from the issued ID: the
or-ed hash bits only land on bits 40 and above. -/
theorem hashedUint64_inj {h1 h2 c1 c2 : Nat} (hc1 : c1 < 2 ^ 40)
    (hc2 : c2 < 2 ^ 40) (heq : hashedUint64 h1 c1 = hashedUint64 h2 c2) :
    c1 = c2 := by
  apply Nat.eq_of_testBit_eq
  intro i
  by_cases hi : i < 40
  · have hbit := congrArg (fun x => Nat.testBit x i) heq
    have hs : ∀ h : Nat,
        Nat.testBit (h <<< HASHED_UINT64_SHIFT % U64) i = false := by
      intro h
      show Nat.testBit (h <<< 40 % 2 ^ 64) i = false
      rw [Nat.testBit_mod_two_pow, Nat.testBit_shiftLeft]
      have h40 : ¬ (40 ≤ i) := by omega
      simp [h40]
    simpa only [hashedUint64, Nat.testBit_lor, hs, Bool.or_false] using hbit
  · have h40 : (2 : Nat) ^ 40 ≤ 2 ^ i :=
      Nat.pow_le_pow_right (by norm_num) (by omega)
    rw [Nat.testBit_lt_two_pow (lt_of_lt_of_le hc1 h40),
      Nat.testBit_lt_two_pow (lt_of_lt_of_le hc2 h40)]

/-- Claim C2 counterexample: with the identity hash (the hash used by
common standard-library implementations), the ID issued for counter value
1 and the ID issued for counter value `2^40 + 1` are both `2^40 + 1`, so a
run of `2^40 + 1` `WrapNew` calls on non-null handles returns a list of
virtual IDs that is NOT pairwise distinct. -/
theorem C2_counterexample :
    ¬ (runWrapNew (fun x => x) WrapperState.init
        (List.replicate (2 ^ 40 + 1) 1)).1.Nodup := by
  intro hnd
  have hinit : WrapperState.init = ⟨1, []⟩ := rfl
  rw [hinit, runWrapNew_ids _ _ _ _
    (by
      intro hmem
      exact absurd (List.mem_replicate.mp hmem).2 (by decide))
    (by
      rw [List.length_replicate]
      norm_num [U64])] at hnd
  simp only [List.length_replicate] at hnd
  rw [List.nodup_map_iff_inj_on (List.nodup_range _)] at hnd
  have h0 : (0 : Nat) ∈ List.range (2 ^ 40 + 1) := by
    simp
  have h40 : (2 ^ 40 : Nat) ∈ List.range (2 ^ 40 + 1) := by
    simp
  have hcollide := hnd 0 h0 (2 ^ 40) h40 (by decide)
  exact absurd hcollide (by norm_num)

/-- Claim C2 (amended): as long as fewer than `2^40` IDs have been issued
(the counter stays below `2^40`, where the or-ed hash bits cannot touch the
counter bits), the virtual IDs returned by every sequence of `WrapNew`
calls on non-null handles are pairwise distinct and none of them is zero —
for every hash function and every choice of non-null handles. -/
theorem C2_wrapNew_ids_distinct (hash : Nat → Nat) (handles : List Nat)
    (hnn : 0 ∉ handles) (hn : handles.length ≤ 2 ^ 40 - 1) :
    (runWrapNew hash WrapperState.init handles).1.Nodup ∧
      0 ∉ (runWrapNew hash WrapperState.init handles).1 := by
  have hinit : WrapperState.init = ⟨1, []⟩ := rfl
  have hbound : 1 + handles.length ≤ U64 := by
    have h4064 : (2 : Nat) ^ 40 ≤ 2 ^ 64 :=
      Nat.pow_le_pow_right (by norm_num) (by norm_num)
    simp only [U64]
    omega
  rw [hinit, runWrapNew_ids hash handles 1 [] hnn hbound]
  constructor
  · rw [List.nodup_map_iff_inj_on (List.nodup_range _)]
    intro i hi j hj heq
    have hi' : i < handles.length := List.mem_range.mp hi
    have hj' : j < handles.length := List.mem_range.mp hj
    have hpos : (0 : Nat) < 2 ^ 40 := by positivity
    have hlt : (1 : Nat) + i < 2 ^ 40 := by omega
    have hlt' : (1 : Nat) + j < 2 ^ 40 := by omega
    have := hashedUint64_inj hlt hlt' heq
    omega
  · intro hmem
    rcases List.mem_map.mp hmem with ⟨i, _, hzero⟩
    exact @hashedUint64_ne_zero (hash (1 + i)) (1 + i) (by omega) hzero

/-- Witness for the amended C2: the two distinct non-null handles 5 and 6
with the identity hash. -/
theorem C2_wrapNew_ids_distinct_witness :
    (0 : Nat) ∉ ([5, 6] : List Nat) ∧
      ([5, 6] : List Nat).length ≤ 2 ^ 40 - 1 ∧
      ((runWrapNew (fun x => x) WrapperState.init [5, 6]).1.Nodup ∧
        0 ∉ (runWrapNew (fun x => x) WrapperState.init [5, 6]).1) :=
  ⟨by decide, by decide,
    C2_wrapNew_ids_distinct (fun x => x) [5, 6] (by decide) (by decide)⟩

/-- Claim C7: `MaybeWrapDisplay` is idempotent: a second call on the same
real handle returns the same virtual ID, and the second call changes no
state at all (in particular it allocates no new virtual ID). -/
theorem C7_maybeWrapDisplay_idempotent (hash : Nat → Nat)
    (st : InstanceState) (handle : Nat) :
    (MaybeWrapDisplay hash (MaybeWrapDisplay hash st handle).2 handle).1 =
      (MaybeWrapDisplay hash st handle).1 ∧
    (MaybeWrapDisplay hash (MaybeWrapDisplay hash st handle).2 handle).2 =
      (MaybeWrapDisplay hash st handle).2 := by
  cases hfind : mapLookup st.revMap handle with
  | some id =>
    constructor <;> simp [MaybeWrapDisplay, hfind]
  | none =>
    constructor <;>
      simp [MaybeWrapDisplay, hfind, mapLookup_insertOrAssign_self]

/-- Claim C8: `Erase` returns the real handle that was mapped to the id
(the sentinel 0 when the id is absent), and after `Erase(id)` a subsequent
`Find(id)` returns the invalid-handle sentinel 0. -/
theorem C8_erase_removes (st : WrapperState) (id : Nat) (r : Option Nat)
    (h : mapLookup st.idMap id = r) :
    (Erase st id).1 = r.getD 0 ∧ Find (Erase st id).2 id = 0 := by
  cases r with
  | some v => simp [Erase, h, Find, mapLookup_removeKey_self]
  | none => simp [Erase, h, Find, mapLookup_removeKey_self]

/-- Witness for C8 at a concrete state holding the mapping 3 ↦ 9. -/
theorem C8_erase_removes_witness :
    mapLookup (WrapperState.mk 1 [(3, 9)]).idMap 3 = some 9 ∧
      ((Erase ⟨1, [(3, 9)]⟩ 3).1 = (some 9).getD 0 ∧
        Find (Erase ⟨1, [(3, 9)]⟩ 3).2 3 = 0) :=
  ⟨by decide, C8_erase_removes ⟨1, [(3, 9)]⟩ 3 (some 9) (by decide)⟩

/-- Claim C9: for an absent (unissued or erased) virtual id, the sentinel
returned by `Unwrap`, `Find` and `Erase` is the value 0, which is exactly
the null handle; in particular unwrapping an invalid id is
indistinguishable from unwrapping the null handle. -/
theorem C9_sentinel_is_null (st : WrapperState) (id : Nat) (hid : id ≠ 0)
    (habsent : mapLookup st.idMap id = none) :
    Unwrap st id = 0 ∧ Find st id = 0 ∧ (Erase st id).1 = 0 ∧
      Unwrap st 0 = 0 ∧ Unwrap st id = Unwrap st 0 := by
  refine ⟨?_, ?_, ?_, ?_, ?_⟩ <;>
    simp [Unwrap, Find, Erase, hid, habsent]

/-- Witness for C9: id 7 absent from the state holding only 3 ↦ 9. -/
theorem C9_sentinel_is_null_witness :
    (7 : Nat) ≠ 0 ∧ mapLookup (WrapperState.mk 1 [(3, 9)]).idMap 7 = none ∧
      (Unwrap ⟨1, [(3, 9)]⟩ 7 = 0 ∧ Find ⟨1, [(3, 9)]⟩ 7 = 0 ∧
        (Erase ⟨1, [(3, 9)]⟩ 7).1 = 0 ∧ Unwrap ⟨1, [(3, 9)]⟩ 0 = 0 ∧
        Unwrap ⟨1, [(3, 9)]⟩ 7 = Unwrap ⟨1, [(3, 9)]⟩ 0) :=
  ⟨by decide, by decide,
    C9_sentinel_is_null ⟨1, [(3, 9)]⟩ 7 (by decide) (by decide)⟩

/-!
## `small_vector<T, N>`

The container's observable state: the stored values, `capacity_`, whether
`large_store_` is non-null, and a count of heap allocations performed (each
`new BackingStore[...]`). The element arrays themselves are modelled by the
list of stored values.
-/

structure SmallVec (α : Type) (N : Nat) where
  elems : List α
  capacity : Nat
  largeStore : Bool
  allocCount : Nat
deriving DecidableEq, Repr

namespace SmallVec

/-- `small_vector()`: size 0, capacity `N`, inline store, no allocation. -/
def init (α : Type) (N : Nat) : SmallVec α N := ⟨[], N, false, 0⟩

/-- `size()`. -/
def size {α : Type} {N : Nat} (v : SmallVec α N) : Nat := v.elems.length

/-- `reserve(new_cap)`: growing past the current capacity news a heap
store of exactly the requested capacity; otherwise nothing happens. -/
def reserve {α : Type} {N : Nat} (v : SmallVec α N) (newCap : Nat) :
    SmallVec α N :=
  if v.capacity < newCap then ⟨v.elems, newCap, true, v.allocCount + 1⟩
  else v

/-- `emplace_back`: `reserve(size_ + 1)` then construct at the end. -/
def push {α : Type} {N : Nat} (v : SmallVec α N) (x : α) : SmallVec α N :=
  let v' := v.reserve (v.size + 1)
  ⟨v'.elems ++ [x], v'.capacity, v'.largeStore, v'.allocCount⟩

/-- A sequence of `emplace_back` calls. -/
def pushAll {α : Type} {N : Nat} (v : SmallVec α N) (xs : List α) :
    SmallVec α N :=
  xs.foldl push v

/-- `clear()`: destroys the elements but intentionally keeps capacity and
the backing store. -/
def clear {α : Type} {N : Nat} (v : SmallVec α N) : SmallVec α N :=
  ⟨[], v.capacity, v.largeStore, v.allocCount⟩

/-- `resize(count)`: shrinking destroys the tail; growing reserves once and
then emplaces value-initialized elements. -/
def resize {α : Type} {N : Nat} [Inhabited α] (v : SmallVec α N)
    (count : Nat) : SmallVec α N :=
  if count < v.size then
    ⟨v.elems.take count, v.capacity, v.largeStore, v.allocCount⟩
  else if v.size < count then
    let v' := v.reserve count
    ⟨v'.elems ++ List.replicate (count - v.size) default, v'.capacity,
      v'.largeStore, v'.allocCount⟩
  else v

/-- `shrink_to_fit()`: empty resets to the small store; otherwise, when a
heap store larger than both `N` and the size is held, the contents move to
the small store when `size_ < kSmallCapacity`, and otherwise to a freshly
allocated heap store of exactly `size_` elements. -/
def shrink_to_fit {α : Type} {N : Nat} (v : SmallVec α N) : SmallVec α N :=
  if v.size = 0 then ⟨v.elems, N, false, v.allocCount⟩
  else if N < v.capacity ∧ v.size < v.capacity then
    if v.size < N then ⟨v.elems, N, false, v.allocCount⟩
    else ⟨v.elems, v.size, true, v.allocCount + 1⟩
  else v

/-- `MoveLargeStore`: the destination steals `other`'s heap store (no
allocation, no element copy); `other` is left empty on its inline store. -/
def moveLargeStore {α : Type} {N : Nat} (dst other : SmallVec α N) :
    SmallVec α N × SmallVec α N :=
  (⟨other.elems, other.capacity, true, dst.allocCount⟩,
    ⟨[], N, false, other.allocCount⟩)

/-- `PushBackFrom(Container &&)`: a single `reserve`, then element-wise
move construction; the source's own fields are not touched. -/
def pushBackFrom {α : Type} {N : Nat} (dst : SmallVec α N) (src : List α) :
    SmallVec α N :=
  let v' := dst.reserve (dst.size + src.length)
  ⟨v'.elems ++ src, v'.capacity, v'.largeStore, v'.allocCount⟩

/-- Move constructor `small_vector(small_vector &&other)`: steal the heap
store when `other` has one, element-wise move otherwise; `other.clear()`
runs afterwards in both cases. -/
def moveConstruct {α : Type} {N : Nat} (other : SmallVec α N) :
    SmallVec α N × SmallVec α N :=
  if other.largeStore then
    let r := moveLargeStore (init α N) other
    (r.1, clear r.2)
  else
    (pushBackFrom (init α N) other.elems, clear other)

/-- Move assignment `operator=(small_vector &&other)`: steal the heap
store when `other` has one (clearing this first); otherwise, reallocate
and move element-wise when `other`'s contents do not fit, or move
element-wise in place; `other` is left alone in the non-heap cases. -/
def moveAssign {α : Type} {N : Nat} (dst other : SmallVec α N) :
    SmallVec α N × SmallVec α N :=
  if other.largeStore then moveLargeStore dst.clear other
  else if dst.capacity < other.size then
    (pushBackFrom dst.clear other.elems, other)
  else
    (⟨other.elems, dst.capacity, dst.largeStore, dst.allocCount⟩, other)

/-- While pushes stay within the current capacity, `emplace_back` only
appends: capacity, store kind and allocation count are untouched. -/
theorem pushAll_within {α : Type} {N : Nat} (xs : List α) :
    ∀ v : SmallVec α N, v.size + xs.length ≤ v.capacity →
      pushAll v xs = ⟨v.elems ++ xs, v.capacity, v.largeStore,
        v.allocCount⟩ := by
  induction xs with
  | nil =>
    intro v h
    cases v
    simp [pushAll]
  | cons x rest ih =>
    intro v h
    have hfit : ¬ v.capacity < v.size + 1 := by
      simp only [List.length_cons] at h
      omega
    have hpush : push v x = ⟨v.elems ++ [x], v.capacity, v.largeStore,
        v.allocCount⟩ := by
      simp [push, reserve, hfit]
    have hrest : (⟨v.elems ++ [x], v.capacity, v.largeStore,
        v.allocCount⟩ : SmallVec α N).size + rest.length ≤ v.capacity := by
      simp only [size, List.length_append, List.length_singleton]
      simp only [size, List.length_cons] at h ⊢
      omega
    calc pushAll v (x :: rest) = pushAll (push v x) rest := by
          simp [pushAll]
      _ = _ := by
          rw [hpush, ih _ hrest]
          simp

end SmallVec

/-- Claim C3 (amended): from a default-constructed `small_vector`, pushing
up to `N` elements never allocates and stays on the inline store; pushing
the `(N+1)`-th element allocates a heap store exactly once; and
`shrink_to_fit` on a container that is empty, or whose size is strictly
below `N` while a heap store of capacity above `N` is held, leaves the
container on its inline store.  (When the size equals `N` exactly,
`shrink_to_fit` instead allocates a fresh heap store of capacity `N`.) -/
theorem C3_smallvec_alloc (α : Type) (N : Nat) (xs ys : List α) (z : α)
    (v : SmallVec α N) (hxs : xs.length ≤ N) (hys : ys.length = N)
    (hv : v.size = 0 ∨ (v.size < N ∧ N < v.capacity)) :
    (SmallVec.pushAll (SmallVec.init α N) xs).allocCount = 0 ∧
    (SmallVec.pushAll (SmallVec.init α N) xs).largeStore = false ∧
    (SmallVec.pushAll (SmallVec.init α N) (ys ++ [z])).allocCount = 1 ∧
    (SmallVec.pushAll (SmallVec.init α N) (ys ++ [z])).largeStore = true ∧
    (SmallVec.shrink_to_fit v).largeStore = false := by
  have hfill : SmallVec.pushAll (SmallVec.init α N) ys =
      ⟨ys, N, false, 0⟩ := by
    rw [SmallVec.pushAll_within ys (SmallVec.init α N) (by
      simp [SmallVec.size, SmallVec.init, hys])]
    simp [SmallVec.init]
  have hxsall : SmallVec.pushAll (SmallVec.init α N) xs =
      ⟨xs, N, false, 0⟩ := by
    rw [SmallVec.pushAll_within xs (SmallVec.init α N) (by
      simp [SmallVec.size, SmallVec.init, hxs])]
    simp [SmallVec.init]
  refine ⟨by rw [hxsall], by rw [hxsall], ?_, ?_, ?_⟩
  · rw [show SmallVec.pushAll (SmallVec.init α N) (ys ++ [z]) =
        SmallVec.pushAll (SmallVec.pushAll (SmallVec.init α N) ys) [z] by
      simp [SmallVec.pushAll]]
    rw [hfill]
    simp [SmallVec.pushAll, SmallVec.push, SmallVec.reserve,
      SmallVec.size, hys]
  · rw [show SmallVec.pushAll (SmallVec.init α N) (ys ++ [z]) =
        SmallVec.pushAll (SmallVec.pushAll (SmallVec.init α N) ys) [z] by
      simp [SmallVec.pushAll]]
    rw [hfill]
    simp [SmallVec.pushAll, SmallVec.push, SmallVec.reserve,
      SmallVec.size, hys]
  · rcases hv with h0 | ⟨hlt, hcap⟩
    · simp [SmallVec.shrink_to_fit, h0]
    · by_cases h0 : v.size = 0
      · simp [SmallVec.shrink_to_fit, h0]
      · have hc : N < v.capacity ∧ v.size < v.capacity := ⟨hcap, by omega⟩
        simp [SmallVec.shrink_to_fit, h0, hc, hlt]

/-- Witness for the amended C3: `N = 2`, pushing `[1, 2]` then a third
element, and shrinking a heap-backed container of size 1. -/
theorem C3_smallvec_alloc_witness :
    ([1, 2] : List Nat).length ≤ 2 ∧ ([1, 2] : List Nat).length = 2 ∧
      ((SmallVec.mk [9] 3 true 1 : SmallVec Nat 2).size = 0 ∨
        ((SmallVec.mk [9] 3 true 1 : SmallVec Nat 2).size < 2 ∧
          2 < (SmallVec.mk [9] 3 true 1 : SmallVec Nat 2).capacity)) ∧
      ((SmallVec.pushAll (SmallVec.init Nat 2) [1, 2]).allocCount = 0 ∧
        (SmallVec.pushAll (SmallVec.init Nat 2) [1, 2]).largeStore = false ∧
        (SmallVec.pushAll (SmallVec.init Nat 2)
          ([1, 2] ++ [3])).allocCount = 1 ∧
        (SmallVec.pushAll (SmallVec.init Nat 2)
          ([1, 2] ++ [3])).largeStore = true ∧
        (SmallVec.shrink_to_fit
          (SmallVec.mk [9] 3 true 1 : SmallVec Nat 2)).largeStore = false) :=
  ⟨by decide, by decide, by decide,
    C3_smallvec_alloc Nat 2 [1, 2] [1, 2] 3 ⟨[9], 3, true, 1⟩
      (by decide) (by decide) (by decide)⟩

/-- Claim C3 counterexample: with `N = 2`, push three elements (the vector
migrates to a heap store), `resize` back down to exactly `N = 2` elements,
then `shrink_to_fit`: the size is at most `N`, yet the container still
holds a heap-backed store (the code's `size_ < kSmallCapacity` test is
strict, so `size_ == N` re-allocates a heap store of capacity `N`). -/
theorem C3_counterexample :
    (SmallVec.resize (SmallVec.pushAll (SmallVec.init Nat 2) [1, 2, 3])
        2).size ≤ 2 ∧
    (SmallVec.shrink_to_fit
      (SmallVec.resize (SmallVec.pushAll (SmallVec.init Nat 2) [1, 2, 3])
        2)).largeStore = true := by
  constructor
  · decide
  · decide

/-- Claim C6: when the source of a move-construction or move-assignment
holds a heap-backed store, the operation steals that store (same contents
and capacity, no allocation) and leaves the source empty on its inline
store; when the source is still inline, the move is element-wise: the
destination receives the stored values, keeps its own storage mode, and no
store pointer changes hands.  The well-formedness hypotheses are the
container's invariants: capacity at least `N`, size within capacity, and
an inline container has capacity exactly `N`. -/
theorem C6_move_semantics (α : Type) (N : Nat) (dst other : SmallVec α N)
    (hosize : other.size ≤ other.capacity)
    (hoinline : other.largeStore = false → other.capacity = N)
    (hdcap : N ≤ dst.capacity) :
    (other.largeStore = true →
      (SmallVec.moveConstruct other).1.elems = other.elems ∧
      (SmallVec.moveConstruct other).1.capacity = other.capacity ∧
      (SmallVec.moveConstruct other).1.largeStore = true ∧
      (SmallVec.moveConstruct other).1.allocCount = 0 ∧
      (SmallVec.moveConstruct other).2 =
        ⟨[], N, false, other.allocCount⟩ ∧
      (SmallVec.moveAssign dst other).1.elems = other.elems ∧
      (SmallVec.moveAssign dst other).1.capacity = other.capacity ∧
      (SmallVec.moveAssign dst other).1.largeStore = true ∧
      (SmallVec.moveAssign dst other).1.allocCount = dst.allocCount ∧
      (SmallVec.moveAssign dst other).2 =
        ⟨[], N, false, other.allocCount⟩) ∧
    (other.largeStore = false →
      (SmallVec.moveConstruct other).1.elems = other.elems ∧
      (SmallVec.moveConstruct other).1.largeStore = false ∧
      (SmallVec.moveConstruct other).1.allocCount = 0 ∧
      (SmallVec.moveConstruct other).2.largeStore = false ∧
      (SmallVec.moveAssign dst other).1.elems = other.elems ∧
      (SmallVec.moveAssign dst other).1.largeStore = dst.largeStore ∧
      (SmallVec.moveAssign dst other).1.allocCount = dst.allocCount ∧
      (SmallVec.moveAssign dst other).2 = other) := by
  constructor
  · intro hl
    simp [SmallVec.moveConstruct, SmallVec.moveAssign,
      SmallVec.moveLargeStore, SmallVec.clear, SmallVec.init, hl]
  · intro hl
    have hcapN : other.capacity = N := hoinline hl
    have hlen : other.elems.length ≤ N := by
      have h := hosize
      simp only [SmallVec.size] at h
      omega
    have hnogrow : ¬ N < other.elems.length := by omega
    have hnofit : ¬ dst.capacity < other.elems.length := by omega
    refine ⟨?_, ?_, ?_, ?_, ?_, ?_, ?_, ?_⟩ <;>
      simp [SmallVec.moveConstruct, SmallVec.moveAssign,
        SmallVec.pushBackFrom, SmallVec.reserve, SmallVec.clear,
        SmallVec.init, SmallVec.size, hl, hnogrow, hnofit]

/-- A concrete inline destination for the C6 witness. -/
def mvDst : SmallVec Nat 2 := ⟨[4], 2, false, 0⟩

/-- A concrete heap-backed source for the C6 witness. -/
def mvSrc : SmallVec Nat 2 := ⟨[5, 6, 7], 3, true, 1⟩

/-- Witness for C6: `N = 2`, a heap-backed source of size 3 and an inline
destination. -/
theorem C6_move_semantics_witness :
    (mvSrc.size ≤ mvSrc.capacity ∧
      (mvSrc.largeStore = false → mvSrc.capacity = 2) ∧
      2 ≤ mvDst.capacity) ∧
    ((mvSrc.largeStore = true →
      (SmallVec.moveConstruct mvSrc).1.elems = mvSrc.elems ∧
      (SmallVec.moveConstruct mvSrc).1.capacity = mvSrc.capacity ∧
      (SmallVec.moveConstruct mvSrc).1.largeStore = true ∧
      (SmallVec.moveConstruct mvSrc).1.allocCount = 0 ∧
      (SmallVec.moveConstruct mvSrc).2 = ⟨[], 2, false, mvSrc.allocCount⟩ ∧
      (SmallVec.moveAssign mvDst mvSrc).1.elems = mvSrc.elems ∧
      (SmallVec.moveAssign mvDst mvSrc).1.capacity = mvSrc.capacity ∧
      (SmallVec.moveAssign mvDst mvSrc).1.largeStore = true ∧
      (SmallVec.moveAssign mvDst mvSrc).1.allocCount = mvDst.allocCount ∧
      (SmallVec.moveAssign mvDst mvSrc).2 =
        ⟨[], 2, false, mvSrc.allocCount⟩) ∧
    (mvSrc.largeStore = false →
      (SmallVec.moveConstruct mvSrc).1.elems = mvSrc.elems ∧
      (SmallVec.moveConstruct mvSrc).1.largeStore = false ∧
      (SmallVec.moveConstruct mvSrc).1.allocCount = 0 ∧
      (SmallVec.moveConstruct mvSrc).2.largeStore = false ∧
      (SmallVec.moveAssign mvDst mvSrc).1.elems = mvSrc.elems ∧
      (SmallVec.moveAssign mvDst mvSrc).1.largeStore = mvDst.largeStore ∧
      (SmallVec.moveAssign mvDst mvSrc).1.allocCount = mvDst.allocCount ∧
      (SmallVec.moveAssign mvDst mvSrc).2 = mvSrc)) :=
  ⟨⟨by decide, by decide, by decide⟩,
    C6_move_semantics Nat 2 mvDst mvSrc
      (by decide) (by decide) (by decide)⟩

/-!
## `TlsGuard<T>`

What matters to the thread-local payload is the guard's construction
variant and its destructor.  A guard is described by whether it carries a
skip pointer (only the validate-phase constructor passes one), the value
`*skip_` holds when the destructor runs, and the `persist_` flag (set only
by the `TlsGuardPersist` constructor).  The payload (`payload_`, a
thread-local `std::optional`) is modelled by its engaged flag:
`true` = Initialized, `false` = Reset.
-/

structure TlsGuardState where
  hasSkip : Bool
  skipVal : Bool
  persist : Bool
deriving DecidableEq, Repr

/-- Validate-phase construction `TlsGuard(bool *skip, Args &&...)`:
`payload_.emplace(...)` leaves the payload engaged (the code asserts the
payload was empty beforehand). -/
def tlsConstructValidate (_payload : Bool) : Bool := true

/-- `~TlsGuard()`: `if (!persist_ && (!skip_ || *skip_)) payload_.reset();`
— the payload is reset exactly when the guard does not persist and either
carries no skip pointer or its skip flag reads true. -/
def tlsDestruct (g : TlsGuardState) (payload : Bool) : Bool :=
  if !g.persist && (!g.hasSkip || g.skipVal) then false else payload

/-- Claim C5 counterexample: a validate-phase guard is non-persisting
(`persist_ = false`), yet when its skip flag reads false its destruction
leaves the payload Initialized — it does not move it back to Reset. -/
theorem C5_counterexample :
    (TlsGuardState.mk true false false).persist = false ∧
      tlsDestruct (TlsGuardState.mk true false false) true = true := by
  decide

/-- Claim C5 (amended): construction in a validate phase moves the payload
from Reset to Initialized; destruction of a persisting guard leaves it
Initialized; destruction of a non-persisting guard moves it back to Reset
exactly when the guard carries no skip pointer or its skip flag reads true
— a validate-phase guard whose skip flag is false deliberately leaves the
payload Initialized for the record phase of the same call. -/
theorem C5_tlsGuard_states (g : TlsGuardState) (p : Bool) :
    tlsConstructValidate p = true ∧
    (g.persist = true → tlsDestruct g true = true) ∧
    (g.persist = false → g.hasSkip = false → tlsDestruct g true = false) ∧
    (g.persist = false → g.hasSkip = true → g.skipVal = true →
      tlsDestruct g true = false) ∧
    (g.persist = false → g.hasSkip = true → g.skipVal = false →
      tlsDestruct g true = true) := by
  obtain ⟨hs, sv, pe⟩ := g
  cases hs <;> cases sv <;> cases pe <;>
    simp [tlsConstructValidate, tlsDestruct]

/-- Witness for the amended C5 at the persisting record-phase guard. -/
theorem C5_tlsGuard_states_witness :
    tlsConstructValidate true = true ∧
    ((TlsGuardState.mk false false true).persist = true →
      tlsDestruct (TlsGuardState.mk false false true) true = true) ∧
    ((TlsGuardState.mk false false true).persist = false →
      (TlsGuardState.mk false false true).hasSkip = false →
      tlsDestruct (TlsGuardState.mk false false true) true = false) ∧
    ((TlsGuardState.mk false false true).persist = false →
      (TlsGuardState.mk false false true).hasSkip = true →
      (TlsGuardState.mk false false true).skipVal = true →
      tlsDestruct (TlsGuardState.mk false false true) true = false) ∧
    ((TlsGuardState.mk false false true).persist = false →
      (TlsGuardState.mk false false true).hasSkip = true →
      (TlsGuardState.mk false false true).skipVal = false →
      tlsDestruct (TlsGuardState.mk false false true) true = true) :=
  C5_tlsGuard_states (TlsGuardState.mk false false true) true

/-!
## `small_unordered_map<Key, T, N>`

The `N` inline slots are `small_data_allocated[i]` plus `small_data[i]`,
modelled as a list of `Option (key × value)`; the overflow `inner_cont`
(`vvl::unordered_map`) is modelled as an association list with distinct
keys.  Keys and mapped values are `Nat`; the value-initialized mapped
value `T()` is 0.
-/

structure SmallMap where
  slots : List (Option (Nat × Nat))
  inner : List (Nat × Nat)
deriving DecidableEq, Repr

/-- Scan the inline slots for an allocated entry whose key compares equal
(`helper.compare_equal`), returning its mapped value. -/
def slotsFindVal : List (Option (Nat × Nat)) → Nat → Option Nat
  | [], _ => none
  | none :: rest, k => slotsFindVal rest k
  | some (k', v) :: rest, k =>
    if k' = k then some v else slotsFindVal rest k

/-- Store `(k, v)` in the first unallocated slot; `none` when every slot
is allocated. -/
def slotsFill : List (Option (Nat × Nat)) → Nat → Nat →
    Option (List (Option (Nat × Nat)))
  | [], _, _ => none
  | none :: rest, k, v => some (some (k, v) :: rest)
  | some p :: rest, k, v => (slotsFill rest k v).map (some p :: ·)

/-- `small_container::contains`: scan the inline slots, then the overflow
container. -/
def SmallMap.contains (m : SmallMap) (k : Nat) : Bool :=
  (slotsFindVal m.slots k).isSome || (mapLookup m.inner k).isSome

/-- `small_container::size`: allocated slots plus the overflow size. -/
def SmallMap.size (m : SmallMap) : Nat :=
  (m.slots.filterMap id).length + m.inner.length

/-- The mapped value the container currently associates with `k`, in the
order `operator[]` probes (inline slots first, then the overflow). -/
def SmallMap.valueOf (m : SmallMap) (k : Nat) : Option Nat :=
  match slotsFindVal m.slots k with
  | some v => some v
  | none => mapLookup m.inner k

/-- `small_unordered_map::operator[]`: return the inline or overflow match
if present; otherwise allocate the first free inline slot with
`{key, T()}`, falling back to `inner_cont[key]` (which inserts a
value-initialized entry) when every slot is taken.  Returns the mapped
value together with the updated container. -/
def SmallMap.index (m : SmallMap) (k : Nat) : Nat × SmallMap :=
  match slotsFindVal m.slots k with
  | some v => (v, m)
  | none =>
    match mapLookup m.inner k with
    | some v => (v, m)
    | none =>
      match slotsFill m.slots k 0 with
      | some slots' => (0, ⟨slots', m.inner⟩)
      | none => (0, ⟨m.slots, m.inner ++ [(k, 0)]⟩)

theorem slotsFindVal_fill :
    ∀ (slots : List (Option (Nat × Nat))) (k v : Nat)
      (slots' : List (Option (Nat × Nat))),
      slotsFindVal slots k = none → slotsFill slots k v = some slots' →
      slotsFindVal slots' k = some v
  | [], _, _, _ => by
    intro _ hfill
    simp [slotsFill] at hfill
  | none :: rest, k, v, slots' => by
    intro _ hfill
    simp only [slotsFill, Option.some.injEq] at hfill
    subst hfill
    simp [slotsFindVal]
  | some (k', v') :: rest, k, v, slots' => by
    intro hmiss hfill
    simp only [slotsFindVal] at hmiss
    by_cases hk : k' = k
    · simp [hk] at hmiss
    · simp only [slotsFill, Option.map_eq_some'] at hfill
      obtain ⟨rest', hrest, hcons⟩ := hfill
      subst hcons
      simp only [slotsFindVal, if_neg hk]
      exact slotsFindVal_fill rest k v rest' (by simpa [hk] using hmiss)
        hrest

theorem slotsFill_count :
    ∀ (slots : List (Option (Nat × Nat))) (k v : Nat)
      (slots' : List (Option (Nat × Nat))),
      slotsFill slots k v = some slots' →
      (slots'.filterMap id).length = (slots.filterMap id).length + 1
  | [], _, _, _ => by
    intro hfill
    simp [slotsFill] at hfill
  | none :: rest, k, v, slots' => by
    intro hfill
    simp only [slotsFill, Option.some.injEq] at hfill
    subst hfill
    simp [List.filterMap_cons]
  | some p :: rest, k, v, slots' => by
    intro hfill
    simp only [slotsFill, Option.map_eq_some'] at hfill
    obtain ⟨rest', hrest, hcons⟩ := hfill
    subst hcons
    simp only [List.filterMap_cons, id_eq, List.length_cons]
    rw [slotsFill_count rest k v rest' hrest]

theorem mapLookup_append_absent (m : List (Nat × Nat)) (k v : Nat)
    (h : mapLookup m k = none) :
    mapLookup (m ++ [(k, v)]) k = some v := by
  induction m with
  | nil => simp [mapLookup]
  | cons p rest ih =>
    obtain ⟨k', v'⟩ := p
    simp only [mapLookup] at h
    by_cases hk : k' = k
    · simp [hk] at h
    · simp only [List.cons_append, mapLookup, if_neg hk]
      exact ih (by simpa [hk] using h)

/-- Claim C10: `operator[]` on an absent key inserts a value-initialized
mapped value for that key — afterwards `contains` is true and `size` has
grown by exactly one — and on a present key returns the existing mapped
value and leaves the container (hence its size) unchanged. -/
theorem C10_smallmap_index (m : SmallMap) (k : Nat) (r : Option Nat)
    (h : m.valueOf k = r) :
    (r = none → (m.index k).1 = 0 ∧ (m.index k).2.contains k = true ∧
      (m.index k).2.size = m.size + 1) ∧
    (r ≠ none → (m.index k).1 = r.getD 0 ∧ (m.index k).2 = m) := by
  cases hslot : slotsFindVal m.slots k with
  | some v =>
    have hr : r = some v := by
      rw [← h]
      simp [SmallMap.valueOf, hslot]
    subst hr
    constructor
    · intro hc
      simp at hc
    · intro _
      simp [SmallMap.index, hslot]
  | none =>
    cases hinner : mapLookup m.inner k with
    | some v =>
      have hr : r = some v := by
        rw [← h]
        simp [SmallMap.valueOf, hslot, hinner]
      subst hr
      constructor
      · intro hc
        simp at hc
      · intro _
        simp [SmallMap.index, hslot, hinner]
    | none =>
      have hr : r = none := by
        rw [← h]
        simp [SmallMap.valueOf, hslot, hinner]
      subst hr
      refine ⟨fun _ => ?_, fun hc => absurd rfl hc⟩
      cases hfill : slotsFill m.slots k 0 with
      | some slots' =>
        refine ⟨by simp [SmallMap.index, hslot, hinner, hfill], ?_, ?_⟩
        · have := slotsFindVal_fill m.slots k 0 slots' hslot hfill
          simp [SmallMap.index, hslot, hinner, hfill, SmallMap.contains,
            this]
        · have := slotsFill_count m.slots k 0 slots' hfill
          simp [SmallMap.index, hslot, hinner, hfill, SmallMap.size, this]
          omega
      | none =>
        refine ⟨by simp [SmallMap.index, hslot, hinner, hfill], ?_, ?_⟩
        · have := mapLookup_append_absent m.inner k 0 hinner
          simp [SmallMap.index, hslot, hinner, hfill, SmallMap.contains,
            this]
        · simp [SmallMap.index, hslot, hinner, hfill, SmallMap.size]
          omega

/-- Witness for C10: indexing the absent key 4 in a container with one
allocated slot (key 1) and one overflow entry (key 2). -/
theorem C10_smallmap_index_witness :
    (SmallMap.mk [some (1, 10), none] [(2, 20)]).valueOf 4 = none ∧
      ((none = (none : Option Nat) →
        ((SmallMap.mk [some (1, 10), none] [(2, 20)]).index 4).1 = 0 ∧
        ((SmallMap.mk [some (1, 10), none] [(2, 20)]).index 4).2.contains
          4 = true ∧
        ((SmallMap.mk [some (1, 10), none] [(2, 20)]).index 4).2.size =
          (SmallMap.mk [some (1, 10), none] [(2, 20)]).size + 1) ∧
      ((none : Option Nat) ≠ none →
        ((SmallMap.mk [some (1, 10), none] [(2, 20)]).index 4).1 =
          (none : Option Nat).getD 0 ∧
        ((SmallMap.mk [some (1, 10), none] [(2, 20)]).index 4).2 =
          SmallMap.mk [some (1, 10), none] [(2, 20)])) :=
  ⟨by decide,
    C10_smallmap_index (SmallMap.mk [some (1, 10), none] [(2, 20)]) 4 none
      (by decide)⟩

/-!
## `small_container` (set instantiation) and its plain counterpart

For C4 the generic `small_container` is embedded at the set instantiation
(`small_unordered_set<Key, N>`, where `value_type = Key` and the helper
compares/assigns keys directly).  The inline region
(`small_data_allocated[i]` / `small_data[i]`) is a list of `Option Nat`;
`inner_cont` is a duplicate-free key list.
-/

structure SmallSet where
  slots : List (Option Nat)
  inner : List Nat
deriving DecidableEq, Repr

/-- `small_container()`: all `N` inline slots unallocated, empty overflow. -/
def SmallSet.init (N : Nat) : SmallSet := ⟨List.replicate N none, []⟩

/-- The inline scan `small_data_allocated[i] && compare_equal(...)`. -/
def slotsHave (slots : List (Option Nat)) (k : Nat) : Bool :=
  slots.any (fun s => s = some k)

/-- Allocate the first free slot for `k`; `none` when all are taken. -/
def slotsFillKey : List (Option Nat) → Nat → Option (List (Option Nat))
  | [], _ => none
  | none :: rest, k => some (some k :: rest)
  | some v :: rest, k => (slotsFillKey rest k).map (some v :: ·)

/-- Deallocate the first slot holding `k`; `none` when no slot does. -/
def slotsClear : List (Option Nat) → Nat → Option (List (Option Nat))
  | [], _ => none
  | none :: rest, k => (slotsClear rest k).map (none :: ·)
  | some v :: rest, k =>
    if v = k then some (none :: rest)
    else (slotsClear rest k).map (some v :: ·)

/-- `small_container::contains`: inline scan, then the overflow. -/
def SmallSet.contains (c : SmallSet) (k : Nat) : Bool :=
  slotsHave c.slots k || c.inner.contains k

/-- `small_container::insert`: already present inline or in the overflow →
no insertion; otherwise the first free inline slot, falling back to the
overflow container.  Returns the `inserted` flag of the C++ pair. -/
def SmallSet.insert (c : SmallSet) (k : Nat) : Bool × SmallSet :=
  if slotsHave c.slots k then (false, c)
  else if c.inner.contains k then (false, c)
  else
    match slotsFillKey c.slots k with
    | some slots' => (true, ⟨slots', c.inner⟩)
    | none => (true, ⟨c.slots, c.inner ++ [k]⟩)

/-- `small_container::erase`: deallocate a matching inline slot (count 1),
else defer to `inner_cont.erase(key)` and its count. -/
def SmallSet.erase (c : SmallSet) (k : Nat) : Nat × SmallSet :=
  match slotsClear c.slots k with
  | some slots' => (1, ⟨slots', c.inner⟩)
  | none =>
    (if c.inner.contains k then 1 else 0,
      ⟨c.slots, c.inner.filter (fun x => x ≠ k)⟩)

/-- `small_container::size`: allocated slots plus the overflow size. -/
def SmallSet.size (c : SmallSet) : Nat :=
  (c.slots.filterMap id).length + c.inner.length

/-- All keys currently held (inline region first, then overflow). -/
def SmallSet.keys (c : SmallSet) : List Nat :=
  c.slots.filterMap id ++ c.inner

/-- Modelled from the spec: "an equivalent plain hash-based associative
container" — described purely by its set of keys, kept as a
duplicate-free list. -/
structure PlainSet where
  elems : List Nat
deriving DecidableEq, Repr

def PlainSet.contains (s : PlainSet) (k : Nat) : Bool := s.elems.contains k

def PlainSet.insert (s : PlainSet) (k : Nat) : Bool × PlainSet :=
  if s.elems.contains k then (false, s) else (true, ⟨s.elems ++ [k]⟩)

def PlainSet.erase (s : PlainSet) (k : Nat) : Nat × PlainSet :=
  if s.elems.contains k then (1, ⟨s.elems.filter (fun x => x ≠ k)⟩)
  else (0, s)

def PlainSet.size (s : PlainSet) : Nat := s.elems.length

/-- One observable operation of the associative-container interface. -/
inductive SetOp where
  | ins (k : Nat)
  | del (k : Nat)
  | has (k : Nat)
  | card
deriving DecidableEq, Repr

/-- Run a sequence of operations against the `small_container`,
collecting every observable result (booleans encoded as 0/1). -/
def runSmall : SmallSet → List SetOp → List Nat
  | _, [] => []
  | c, SetOp.ins k :: rest =>
    (if (c.insert k).1 then 1 else 0) :: runSmall (c.insert k).2 rest
  | c, SetOp.del k :: rest => (c.erase k).1 :: runSmall (c.erase k).2 rest
  | c, SetOp.has k :: rest =>
    (if c.contains k then 1 else 0) :: runSmall c rest
  | c, SetOp.card :: rest => c.size :: runSmall c rest

/-- The same run against the plain container. -/
def runPlain : PlainSet → List SetOp → List Nat
  | _, [] => []
  | s, SetOp.ins k :: rest =>
    (if (s.insert k).1 then 1 else 0) :: runPlain (s.insert k).2 rest
  | s, SetOp.del k :: rest => (s.erase k).1 :: runPlain (s.erase k).2 rest
  | s, SetOp.has k :: rest =>
    (if s.contains k then 1 else 0) :: runPlain s rest
  | s, SetOp.card :: rest => s.size :: runPlain s rest

/-- The simulation relation: the small container holds exactly the plain
container's keys (as a permutation), and those keys are duplicate-free. -/
def Abstracts (c : SmallSet) (s : PlainSet) : Prop :=
  c.keys.Perm s.elems ∧ s.elems.Nodup

theorem slotsHave_iff (slots : List (Option Nat)) (k : Nat) :
    slotsHave slots k = true ↔ k ∈ slots.filterMap id := by
  simp only [slotsHave, List.any_eq_true, List.mem_filterMap, id_eq,
    decide_eq_true_eq]

theorem listContains_iff (l : List Nat) (k : Nat) :
    l.contains k = true ↔ k ∈ l := by
  simp [List.contains, List.elem_iff]

theorem smallSet_contains_iff (c : SmallSet) (k : Nat) :
    c.contains k = true ↔ k ∈ c.keys := by
  simp [SmallSet.contains, SmallSet.keys, slotsHave_iff, listContains_iff,
    List.mem_append]

theorem plainSet_contains_iff (s : PlainSet) (k : Nat) :
    s.contains k = true ↔ k ∈ s.elems := by
  simp [PlainSet.contains, listContains_iff]

theorem contains_sim {c : SmallSet} {s : PlainSet} (k : Nat)
    (h : Abstracts c s) : c.contains k = s.contains k := by
  have hmem : k ∈ c.keys ↔ k ∈ s.elems := h.1.mem_iff
  by_cases hk : k ∈ s.elems
  · rw [(smallSet_contains_iff c k).mpr (hmem.mpr hk),
      (plainSet_contains_iff s k).mpr hk]
  · have h1 : ¬ c.contains k = true := fun hc =>
      hk (hmem.mp ((smallSet_contains_iff c k).mp hc))
    have h2 : ¬ s.contains k = true := fun hc =>
      hk ((plainSet_contains_iff s k).mp hc)
    rw [Bool.not_eq_true] at h1 h2
    rw [h1, h2]

theorem size_sim {c : SmallSet} {s : PlainSet} (h : Abstracts c s) :
    c.size = s.size := by
  have := h.1.length_eq
  simpa [SmallSet.size, SmallSet.keys, PlainSet.size,
    List.length_append] using this

theorem slotsFillKey_perm :
    ∀ (slots : List (Option Nat)) (k : Nat)
      (slots' : List (Option Nat)),
      slotsFillKey slots k = some slots' →
      (slots'.filterMap id).Perm (k :: slots.filterMap id)
  | [], _, _ => by
    intro h
    simp [slotsFillKey] at h
  | none :: rest, k, slots' => by
    intro h
    simp only [slotsFillKey, Option.some.injEq] at h
    subst h
    simp [List.filterMap_cons]
  | some v :: rest, k, slots' => by
    intro h
    simp only [slotsFillKey, Option.map_eq_some'] at h
    obtain ⟨rest', hrest, hcons⟩ := h
    subst hcons
    simp only [List.filterMap_cons, id_eq]
    exact ((slotsFillKey_perm rest k rest' hrest).cons v).trans
      (List.Perm.swap k v _)

theorem slotsClear_perm :
    ∀ (slots : List (Option Nat)) (k : Nat)
      (slots' : List (Option Nat)),
      slotsClear slots k = some slots' →
      (k :: slots'.filterMap id).Perm (slots.filterMap id)
  | [], _, _ => by
    intro h
    simp [slotsClear] at h
  | none :: rest, k, slots' => by
    intro h
    simp only [slotsClear, Option.map_eq_some'] at h
    obtain ⟨rest', hrest, hcons⟩ := h
    subst hcons
    simpa [List.filterMap_cons] using slotsClear_perm rest k rest' hrest
  | some v :: rest, k, slots' => by
    intro h
    by_cases hv : v = k
    · simp only [slotsClear, if_pos hv, Option.some.injEq] at h
      subst h
      simp [List.filterMap_cons, hv]
    · simp only [slotsClear, if_neg hv, Option.map_eq_some'] at h
      obtain ⟨rest', hrest, hcons⟩ := h
      subst hcons
      simp only [List.filterMap_cons, id_eq]
      exact (List.Perm.swap v k _).trans
        ((slotsClear_perm rest k rest' hrest).cons v)

theorem slotsClear_eq_none_iff :
    ∀ (slots : List (Option Nat)) (k : Nat),
      slotsClear slots k = none ↔ slotsHave slots k = false
  | [], k => by simp [slotsClear, slotsHave]
  | none :: rest, k => by
    have ih := slotsClear_eq_none_iff rest k
    simp only [slotsClear, Option.map_eq_none', slotsHave, List.any_cons]
    simp only [slotsHave] at ih
    simp [ih]
  | some v :: rest, k => by
    have ih := slotsClear_eq_none_iff rest k
    by_cases hv : v = k
    · simp [slotsClear, if_pos hv, slotsHave, List.any_cons, hv]
    · simp only [slotsClear, if_neg hv, Option.map_eq_none', slotsHave,
        List.any_cons]
      simp only [slotsHave] at ih
      simp [ih, hv]

theorem insert_sim {c : SmallSet} {s : PlainSet} (k : Nat)
    (h : Abstracts c s) :
    (c.insert k).1 = (s.insert k).1 ∧
      Abstracts (c.insert k).2 (s.insert k).2 := by
  obtain ⟨hperm, hnd⟩ := h
  by_cases hk : k ∈ s.elems
  · have hkeys : k ∈ c.slots.filterMap id ++ c.inner := hperm.mem_iff.mpr hk
    have hsc : s.elems.contains k = true := (listContains_iff _ _).mpr hk
    have hsmall : c.insert k = (false, c) := by
      by_cases hsh : slotsHave c.slots k
      · simp [SmallSet.insert, hsh]
      · have hin : k ∈ c.inner := by
          rcases List.mem_append.mp hkeys with hl | hr
          · exact absurd ((slotsHave_iff _ _).mpr hl) hsh
          · exact hr
        rw [Bool.not_eq_true] at hsh
        simp [SmallSet.insert, hsh, hin]
    have hplain : s.insert k = (false, s) := by
      simp [PlainSet.insert, hk]
    rw [hsmall, hplain]
    exact ⟨rfl, hperm, hnd⟩
  · have hkeys : k ∉ c.keys := fun hmem => hk (hperm.mem_iff.mp hmem)
    have hsh : slotsHave c.slots k = false := by
      rw [← Bool.not_eq_true]
      intro hx
      exact hkeys (List.mem_append.mpr (Or.inl ((slotsHave_iff _ _).mp hx)))
    have hnotin : k ∉ c.inner := fun hx =>
      hkeys (List.mem_append.mpr (Or.inr hx))
    have hmid : (s.elems ++ [k]).Perm (k :: s.elems) := by
      simp
    have hnd' : (s.elems ++ [k]).Nodup :=
      hmid.symm.nodup (List.nodup_cons.mpr ⟨hk, hnd⟩)
    have hpk : (k :: c.keys).Perm (s.elems ++ [k]) :=
      (hperm.cons k).trans hmid.symm
    cases hfill : slotsFillKey c.slots k with
    | some slots' =>
      have hsmall : c.insert k = (true, ⟨slots', c.inner⟩) := by
        simp [SmallSet.insert, hsh, hnotin, hfill]
      have hplain : s.insert k = (true, ⟨s.elems ++ [k]⟩) := by
        simp [PlainSet.insert, hk]
      rw [hsmall, hplain]
      refine ⟨rfl, ?_, hnd'⟩
      have h1 : (SmallSet.mk slots' c.inner).keys.Perm (k :: c.keys) := by
        have h2 := (slotsFillKey_perm c.slots k slots' hfill).append_right
          c.inner
        simpa [SmallSet.keys] using h2
      exact h1.trans hpk
    | none =>
      have hsmall : c.insert k = (true, ⟨c.slots, c.inner ++ [k]⟩) := by
        simp [SmallSet.insert, hsh, hnotin, hfill]
      have hplain : s.insert k = (true, ⟨s.elems ++ [k]⟩) := by
        simp [PlainSet.insert, hk]
      rw [hsmall, hplain]
      refine ⟨rfl, ?_, hnd'⟩
      have h1 : (SmallSet.mk c.slots (c.inner ++ [k])).keys.Perm
          (k :: c.keys) := by
        simp only [SmallSet.keys]
        have hm := (List.perm_middle :
          List.Perm ((c.slots.filterMap id ++ c.inner) ++ [k])
            (k :: ((c.slots.filterMap id ++ c.inner) ++ [])))
        rw [List.append_nil] at hm
        rw [← List.append_assoc]
        exact hm
      exact h1.trans hpk

theorem erase_sim {c : SmallSet} {s : PlainSet} (k : Nat)
    (h : Abstracts c s) :
    (c.erase k).1 = (s.erase k).1 ∧
      Abstracts (c.erase k).2 (s.erase k).2 := by
  obtain ⟨hperm, hnd⟩ := h
  by_cases hk : k ∈ s.elems
  · have hplain : s.erase k =
        (1, ⟨s.elems.filter (fun x => x ≠ k)⟩) := by
      simp [PlainSet.erase, hk]
    have hcount1 : List.count k s.elems = 1 := by
      have hle := List.nodup_iff_count_le_one.mp hnd k
      have hge := List.count_pos_iff.mpr hk
      omega
    have hckeys : ∀ a, List.count a c.keys = List.count a s.elems :=
      List.perm_iff_count.mp hperm
    have hfk : List.count k (s.elems.filter (fun x => x ≠ k)) = 0 :=
      List.count_eq_zero.mpr (by simp)
    have hfa : ∀ a, a ≠ k →
        List.count a (s.elems.filter (fun x => x ≠ k)) =
          List.count a s.elems := by
      intro a ha
      exact List.count_filter (by simp [ha])
    cases hclear : slotsClear c.slots k with
    | some slots' =>
      have hsmall : c.erase k = (1, ⟨slots', c.inner⟩) := by
        simp [SmallSet.erase, hclear]
      rw [hsmall, hplain]
      refine ⟨rfl, ?_, hnd.filter _⟩
      rw [List.perm_iff_count]
      intro a
      have hcl := List.perm_iff_count.mp
        (slotsClear_perm c.slots k slots' hclear) a
      have hka := hckeys a
      simp only [SmallSet.keys, List.count_append] at hka ⊢
      by_cases ha : a = k
      · subst ha
        rw [List.count_cons_self] at hcl
        rw [hfk]
        omega
      · rw [List.count_cons_of_ne ha] at hcl
        rw [hfa a ha]
        omega
    | none =>
      have hsh : slotsHave c.slots k = false :=
        (slotsClear_eq_none_iff _ _).mp hclear
      have hnotA : k ∉ c.slots.filterMap id := fun hm =>
        absurd ((slotsHave_iff _ _).mpr hm) (by simp [hsh])
      have hinB : k ∈ c.inner := by
        rcases List.mem_append.mp
          ((hperm.mem_iff.mpr hk : k ∈ c.keys)) with h1 | h2
        · exact absurd h1 hnotA
        · exact h2
      have hsmall : c.erase k =
          (1, ⟨c.slots, c.inner.filter (fun x => x ≠ k)⟩) := by
        simp [SmallSet.erase, hclear, hinB]
      rw [hsmall, hplain]
      refine ⟨rfl, ?_, hnd.filter _⟩
      rw [List.perm_iff_count]
      intro a
      have hka := hckeys a
      simp only [SmallSet.keys, List.count_append] at hka ⊢
      by_cases ha : a = k
      · subst ha
        have hA : List.count a (c.slots.filterMap id) = 0 :=
          List.count_eq_zero.mpr hnotA
        have hB : List.count a (c.inner.filter (fun x => x ≠ a)) = 0 :=
          List.count_eq_zero.mpr (by simp)
        rw [hA, hB, hfk]
      · have hB : List.count a (c.inner.filter (fun x => x ≠ k)) =
            List.count a c.inner :=
          List.count_filter (by simpa using ha)
        rw [hB, hfa a ha]
        omega
  · have hkeys : k ∉ c.keys := fun hmem => hk (hperm.mem_iff.mp hmem)
    have hsh : slotsHave c.slots k = false := by
      rw [← Bool.not_eq_true]
      intro hx
      exact hkeys (List.mem_append.mpr (Or.inl ((slotsHave_iff _ _).mp hx)))
    have hclear : slotsClear c.slots k = none :=
      (slotsClear_eq_none_iff _ _).mpr hsh
    have hnotin : k ∉ c.inner := fun hx =>
      hkeys (List.mem_append.mpr (Or.inr hx))
    have hfilter : c.inner.filter (fun x => x ≠ k) = c.inner :=
      List.filter_eq_self.mpr (fun a ha => by
        simp only [ne_eq, decide_eq_true_eq]
        intro he
        subst he
        exact hnotin ha)
    have hall : ∀ a ∈ c.inner, ¬ a = k := fun a ha he => hnotin (he ▸ ha)
    have hsmall : c.erase k = (0, ⟨c.slots, c.inner⟩) := by
      simp [SmallSet.erase, hclear, hnotin, hfilter]
      exact hall
    have hplain : s.erase k = (0, s) := by
      simp [PlainSet.erase, hk]
    rw [hsmall, hplain]
    exact ⟨rfl, hperm, hnd⟩

theorem runs_sim :
    ∀ (ops : List SetOp) (c : SmallSet) (s : PlainSet),
      Abstracts c s → runSmall c ops = runPlain s ops
  | [], _, _, _ => rfl
  | SetOp.ins k :: rest, c, s, h => by
    have hi := insert_sim k h
    simp only [runSmall, runPlain, hi.1, runs_sim rest _ _ hi.2]
  | SetOp.del k :: rest, c, s, h => by
    have he := erase_sim k h
    simp only [runSmall, runPlain, he.1, runs_sim rest _ _ he.2]
  | SetOp.has k :: rest, c, s, h => by
    simp only [runSmall, runPlain, contains_sim k h, runs_sim rest _ _ h]
  | SetOp.card :: rest, c, s, h => by
    simp only [runSmall, runPlain, size_sim h, runs_sim rest _ _ h]

/-- Claim C4: for every finite sequence of insert, erase, contains and
size operations, the observable results of the inline-capacity
`small_container` (any capacity `N`) are identical to those of the plain
hash-based associative container it mirrors, whether or not the number of
live entries ever exceeds `N`. -/
theorem C4_smallcontainer_refinement (N : Nat) (ops : List SetOp) :
    runSmall (SmallSet.init N) ops = runPlain (PlainSet.mk []) ops := by
  apply runs_sim
  constructor
  · have hrep : (List.replicate N (none : Option Nat)).filterMap id = [] := by
      induction N with
      | zero => rfl
      | succ n ih =>
        rw [List.replicate_succ, List.filterMap_cons]
        exact ih
    simp [SmallSet.keys, SmallSet.init, hrep]
  · exact List.nodup_nil

end VVL
